import Mathlib

/-!
Verification development for the byoit service-bootstrap orchestrator.

Go strings are modelled as `List Char`; Go byte slices as `List Nat` with
entries below 256.  Fallible operations return `Option` or `Except`.
Every definition in the `Byoit` namespace is a shallow embedding of the
corresponding function of the source (file names given in doc comments),
except the ones whose doc comment starts with `Modelled from the spec:`
or `Spec wording:` which transcribe the natural-language specification.
-/

set_option maxRecDepth 10000

namespace Byoit

/-- Whitespace set used by the Go strings.TrimSpace function (ASCII part; the exotic
Unicode space code points do not occur in any input considered here). -/
def isGoSpace (c : Char) : Bool :=
  c = ' ' || c = '\t' || c = '\n' || c = '\x0b' || c = '\x0c' || c = '\r'

/-- strings.TrimSpace: drop leading and trailing whitespace. -/
def goTrimSpace (s : List Char) : List Char :=
  ((s.dropWhile isGoSpace).reverse.dropWhile isGoSpace).reverse

/-- strings.Split(s, ".") of the Go standard library: splitting on every dot,
never returning an empty list (the empty string yields one empty segment). -/
def goSplitDot : List Char → List (List Char)
  | [] => [[]]
  | c :: rest =>
    if c = '.' then [] :: goSplitDot rest
    else
      match goSplitDot rest with
      | h :: t => (c :: h) :: t
      | [] => [[c]]

/-- strings.Join(out, ",") of the Go standard library. -/
def joinComma : List (List Char) → List Char
  | [] => []
  | [x] => x
  | x :: xs => x ++ ',' :: joinComma xs

/-- baseDNFromDomain (src/unnamed/part_000, lines 63-72): trim the domain,
split on dots, keep the nonempty segments prefixed with "dc=", join with
commas. -/
def baseDNFromDomain (d : List Char) : List Char :=
  let parts := goSplitDot (goTrimSpace d)
  joinComma ((parts.filter (fun p => p ≠ [])).map (fun p => "dc=".data ++ p))

/-- Spec wording: `deriveBaseIdentifier(domain)` splits the trimmed domain on
`.`, discards empty segments, prefixes each remaining segment with `dc=`, and
joins with commas. -/
def deriveBaseIdentifier (domain : List Char) : List Char :=
  joinComma ((goSplitDot (goTrimSpace domain)).filterMap
    (fun seg => if seg = [] then none else some ("dc=".data ++ seg)))

/-! ## SecretRetriever: getActualAdminPassword and the Go base64 standard decoding -/

/-- Value of a character in the standard base64 alphabet. -/
def b64Val (c : Char) : Option Nat :=
  if 'A' ≤ c ∧ c ≤ 'Z' then some (c.toNat - 65)
  else if 'a' ≤ c ∧ c ≤ 'z' then some (c.toNat - 97 + 26)
  else if '0' ≤ c ∧ c ≤ '9' then some (c.toNat - 48 + 52)
  else if c = '+' then some 62
  else if c = '/' then some 63
  else none

/-- Decode four-symbol base64 quanta, the last one possibly padded with one or
two '=' characters which must end the input; any other shape is a corrupt-input
error, exactly as in the Go encoding/base64 StdEncoding decoder. -/
def decodeQuanta : List Char → Option (List Nat)
  | [] => some []
  | a :: b :: c :: d :: rest =>
    match b64Val a, b64Val b with
    | some va, some vb =>
      if c = '=' then
        if d = '=' ∧ rest = [] then some [va * 4 + vb / 16] else none
      else
        match b64Val c with
        | some vc =>
          if d = '=' then
            if rest = [] then some [va * 4 + vb / 16, vb % 16 * 16 + vc / 4] else none
          else
            match b64Val d with
            | some vd =>
              (decodeQuanta rest).map
                (fun bs =>
                  (va * 4 + vb / 16) :: (vb % 16 * 16 + vc / 4) :: (vc % 4 * 64 + vd) :: bs)
            | none => none
        | none => none
    | _, _ => none
  | _ => none

/-- base64.StdEncoding.DecodeString: carriage returns and newlines are ignored
wherever they occur, everything else must form padded four-symbol quanta. -/
def goBase64Decode (s : List Char) : Option (List Nat) :=
  decodeQuanta (s.filter (fun c => c ≠ '\r' ∧ c ≠ '\n'))

/-- getActualAdminPassword (src/unnamed/part_000, lines 466-476) and
HelmManager.GetActualAdminPassword (src/unnamed/part_001, lines 133-143):
given the trimmed output and error status of the
`kubectl get secret ... -o jsonpath` invocation, return the base64-decoded
secret bytes, or the empty string (modelled as `[]`) on command error, empty
output, or decode failure.  The release name and namespace only select which
secret the command reads; they do not otherwise affect this logic. -/
def getActualAdminPassword (out : List Char) (cmdErr : Bool) : List Nat :=
  if cmdErr = false ∧ out ≠ [] then
    match goBase64Decode out with
    | some decoded => decoded
    | none => []
  else []

/-! ## ClusterGateway: applyYAML over a filesystem model -/

/-- Association list from paths to contents: the filesystem as the program
observes it. -/
abbrev FSFiles := List (List Char × List Char)

/-- os.WriteFile: create or truncate the file at `path`. -/
def fsWrite (fs : FSFiles) (path content : List Char) : FSFiles :=
  (path, content) :: fs.filter (fun pc => pc.1 ≠ path)

/-- os.Remove. -/
def fsRemove (fs : FSFiles) (path : List Char) : FSFiles :=
  fs.filter (fun pc => pc.1 ≠ path)

/-- Read the content of a file, if present. -/
def fsRead (fs : FSFiles) (path : List Char) : Option (List Char) :=
  (fs.find? (fun pc => pc.1 = path)).map Prod.snd

/-- Decimal rendering, fuel-driven so that it reduces by computation; the
fuel argument strictly bounds the number of digits, so with fuel `n + 1` the
recursion never exhausts it. -/
def natToCharsAux : Nat → Nat → List Char
  | 0, _ => []
  | fuel + 1, n =>
    if n < 10 then [Char.ofNat (48 + n)]
    else natToCharsAux fuel (n / 10) ++ [Char.ofNat (48 + n % 10)]

/-- Decimal rendering of a natural number, as the fmt.Sprintf %d verb produces it. -/
def natToChars (n : Nat) : List Char :=
  natToCharsAux (n + 1) n

/-- Numeric value of a decimal digit string (left inverse of natToChars). -/
def valNat (s : List Char) : Nat :=
  s.foldl (fun acc c => acc * 10 + (c.toNat - 48)) 0

/-- Environment of one applyYAML call: os.TempDir(), time.Now().UnixNano(),
and whether the kubectl apply invocation exits successfully. -/
structure ApplyEnv where
  tempDir : List Char
  nowUnixNano : Nat
  applyOK : Bool

/-- The temporary file path `filepath.Join(os.TempDir(),
fmt.Sprintf("infractl-%d.yaml", time.Now().UnixNano()))`. -/
def tempFileName (tempDir : List Char) (nowUnixNano : Nat) : List Char :=
  tempDir ++ "/infractl-".data ++ natToChars nowUnixNano ++ ".yaml".data

/-- Observable effects of applyYAML, in order. -/
inductive ApplyStep where
  | wroteTemp (path content : List Char)
  | ranApply (path : List Char)
  | removedTemp (path : List Char)
deriving DecidableEq

/-- applyYAML (src/unnamed/part_000, lines 288-308): write the manifest to the
timestamp-named temporary file, invoke `kubectl apply -f` on it, and remove it
on every exit path (the Go `defer os.Remove(f)`), returning the result of the
apply verb. -/
def applyYAML (env : ApplyEnv) (fs : FSFiles) (yaml : List Char) :
    Except Unit Unit × FSFiles × List ApplyStep :=
  let f := tempFileName env.tempDir env.nowUnixNano
  let fs1 := fsWrite fs f yaml
  let result : Except Unit Unit := if env.applyOK then .ok () else .error ()
  let fs2 := fsRemove fs1 f
  (result, fs2, [.wroteTemp f yaml, .ranApply f, .removedTemp f])

/-! ## RepositoryResolver: addHelmRepo / HelmManager.AddRepository -/

/-- helm repo.Entry: a name and URL pair. -/
structure RepoEntry where
  name : List Char
  url : List Char
deriving DecidableEq

/-- The local repository-registration file as the helm repo.LoadFile function sees it:
absent, unreadable or corrupt (both load errors), or a list of entries. -/
inductive RegFile where
  | absent
  | corrupt
  | entries (l : List RepoEntry)
deriving DecidableEq

/-- repo.LoadFile: any of the failure shapes is a load error. -/
def loadRepoFile : RegFile → Except Unit (List RepoEntry)
  | .absent => .error ()
  | .corrupt => .error ()
  | .entries l => .ok l

/-- Modelled from the spec: the external helm library function repo.File.Update,
described in the spec as "upsert the entry by name (replace if already
present, insert otherwise)"; nothing is ever removed. -/
def updateEntries : List RepoEntry → RepoEntry → List RepoEntry
  | [], e => [e]
  | x :: xs, e => if x.name = e.name then e :: xs else x :: updateEntries xs e

/-- Environment of one addHelmRepo call: whether repo.NewChartRepository
succeeds, whether the direct r.DownloadIndexFile() succeeds, the result of
`curl -s -L <url>/index.yaml` (none on error), and the helm cache directory
cli.New().RepositoryCache. -/
structure RepoEnv where
  chartRepoOK : Bool
  directIndex : Bool
  curlIndex : Option (List Char)
  cacheDir : List Char

/-- Local state touched by addHelmRepo: existing directories, cache files,
and the registration file. -/
structure RepoState where
  dirs : List (List Char)
  files : FSFiles
  reg : RegFile
deriving DecidableEq

inductive RepoError where
  | createRepoFailed
  | downloadFailed
deriving DecidableEq

/-- filepath.Join(cacheDir, name + "-index.yaml"). -/
def cacheIndexPath (cacheDir name : List Char) : List Char :=
  cacheDir ++ '/' :: (name ++ "-index.yaml".data)

/-- addHelmRepo (src/unnamed/part_000, lines 227-286) and the identical
HelmManager.AddRepository (src/unnamed/part_001, lines 38-97): build the chart
repository, try the direct index download, fall back to a plain HTTP GET of
`<url>/index.yaml` written into `<cacheDir>/<name>-index.yaml` (creating the
cache directory if absent), then load the registration file (any load error is
treated as an empty file), upsert the entry, and write the file back.
Filesystem writes are modelled as infallible state updates. -/
def addHelmRepo (env : RepoEnv) (st : RepoState) (name url : List Char) :
    Except RepoError RepoState :=
  if ¬ env.chartRepoOK then .error .createRepoFailed
  else
    let afterIndex : Except RepoError RepoState :=
      if env.directIndex then .ok st
      else
        match env.curlIndex with
        | none => .error .downloadFailed
        | some output =>
          let dirs := if env.cacheDir ∈ st.dirs then st.dirs else env.cacheDir :: st.dirs
          let files := fsWrite st.files (cacheIndexPath env.cacheDir name) output
          .ok { st with dirs := dirs, files := files }
    match afterIndex with
    | .error e => .error e
    | .ok st1 =>
      let entries :=
        match loadRepoFile st1.reg with
        | .ok l => l
        | .error _ => []
      .ok { st1 with reg := .entries (updateEntries entries ⟨name, url⟩) }

/-! ## PackageInstaller: HelmManager.InstallChart -/

/-- The fields of the helm action.Install record that InstallChart sets. -/
structure InstallAction where
  releaseName : List Char
  namespaceName : List Char
  createNamespace : Bool
  wait : Bool
  timeoutSeconds : Nat
deriving DecidableEq

/-- The action configuration of InstallChart (src/unnamed/part_001, lines 100-108,
and identically installOpenLDAP in src/unnamed/part_000, lines 417-424):
action.NewInstall — a fresh install, never an upgrade — with CreateNamespace
true, Wait false, and a 5 minute (300 second) timeout. -/
def mkInstallAction (releaseName namespaceName : List Char) : InstallAction :=
  { releaseName := releaseName
    namespaceName := namespaceName
    createNamespace := true
    wait := false
    timeoutSeconds := 300 }

/-- Releases known to the package-install backend, as (namespace, name). -/
abbrev ReleaseStore := List (List Char × List Char)

inductive HelmError where
  | locateFailed
  | loadFailed
  | installFailed
deriving DecidableEq

/-- Modelled from the spec: the external Helm install engine.  The InstalledRelease model of the spec says this system only creates releases and "a second
install call against an existing release name is expected to fail"; an
install action therefore errors on a (namespace, name) collision and otherwise
appends the new release, never upgrading or duplicating an existing one. -/
def runInstallAction (act : InstallAction) (store : ReleaseStore) :
    Except HelmError ReleaseStore :=
  if (act.namespaceName, act.releaseName) ∈ store then .error .installFailed
  else .ok (store ++ [(act.namespaceName, act.releaseName)])

/-- Chart resolution environment: LocateChart and loader.Load outcomes. -/
structure ChartEnv where
  locate : List Char → Option (List Char)
  load : List Char → Option Unit

/-- InstallChart (src/unnamed/part_001, lines 100-130): build the install
action, locate the chart reference, load the archive, run the install;
each failure propagates as a hard error. -/
def InstallChart (env : ChartEnv) (store : ReleaseStore)
    (releaseName chartRef namespaceName : List Char) : Except HelmError ReleaseStore :=
  let act := mkInstallAction releaseName namespaceName
  match env.locate chartRef with
  | none => .error .locateFailed
  | some path =>
    match env.load path with
    | none => .error .loadFailed
    | some _ => runInstallAction act store

/-! ## ConfigValidator: validateCIDR and the Go net-package primitives

IP addresses are byte lists: length 4 for a dotted IPv4 parse, length 16 for
an IPv6 parse, exactly as net.ParseCIDR returns them. -/

/-- Decimal and hex cutoff constant of the Go net package: `big` = 0xFFFFFF. -/
def netBig : Nat := 0xFFFFFF

/-- Loop of the net-package dtoi: accumulate decimal digits, failing once
the value reaches the cutoff (with the index of the offending digit). -/
def dtoiLoop : List Char → Nat → Nat → Nat × Nat × Bool
  | [], n, i => (n, i, true)
  | c :: rest, n, i =>
    if '0' ≤ c ∧ c ≤ '9' then
      let n' := n * 10 + (c.toNat - 48)
      if netBig ≤ n' then (netBig, i, false)
      else dtoiLoop rest n' (i + 1)
    else (n, i, true)

/-- dtoi of the Go net package: (value, characters consumed, ok); consuming
no digit at all is a failure. -/
def dtoi (s : List Char) : Nat × Nat × Bool :=
  let r := dtoiLoop s 0 0
  if r.2.1 = 0 then (0, 0, false) else r

def hexDigitVal (c : Char) : Option Nat :=
  if '0' ≤ c ∧ c ≤ '9' then some (c.toNat - 48)
  else if 'a' ≤ c ∧ c ≤ 'f' then some (c.toNat - 97 + 10)
  else if 'A' ≤ c ∧ c ≤ 'F' then some (c.toNat - 65 + 10)
  else none

/-- Loop of the net-package xtoi (hexadecimal dtoi; overflow reports 0). -/
def xtoiLoop : List Char → Nat → Nat → Nat × Nat × Bool
  | [], n, i => (n, i, true)
  | c :: rest, n, i =>
    match hexDigitVal c with
    | none => (n, i, true)
    | some d =>
      let n' := n * 16 + d
      if netBig ≤ n' then (0, i, false)
      else xtoiLoop rest n' (i + 1)

/-- xtoi of the Go net package. -/
def xtoi (s : List Char) : Nat × Nat × Bool :=
  let r := xtoiLoop s 0 0
  if r.2.1 = 0 then (0, 0, false) else r

/-- One field of parseIPv4: a decimal value up to 255, with the leading-zero
rejection of current Go; returns the value and the unconsumed rest. -/
def parseV4Field (s : List Char) : Option (Nat × List Char) :=
  if ¬ (dtoi s).2.2 ∨ 255 < (dtoi s).1 then none
  else if 1 < (dtoi s).2.1 ∧ s.head? = some '0' then none
  else some ((dtoi s).1, s.drop (dtoi s).2.1)

def expectDot : List Char → Option (List Char)
  | '.' :: rest => some rest
  | _ => none

/-- parseIPv4 of the Go net package: exactly four dot-separated decimal
fields and nothing else (the failure of any step fails the whole parse, as
each early return does in Go). -/
def parseIPv4 (s : List Char) : Option (List Nat) := do
  let (a, s1) ← parseV4Field s
  let s1' ← expectDot s1
  let (b, s2) ← parseV4Field s1'
  let s2' ← expectDot s2
  let (c, s3) ← parseV4Field s2'
  let s3' ← expectDot s3
  let (d, s4) ← parseV4Field s3'
  if s4 = [] then some [a, b, c, d] else none

/-- Bytes collected by the Go parseIPv6 function: the ones written before the ellipsis
and, once a `::` has been seen, the ones after it. -/
structure V6Acc where
  pre : List Nat
  post : Option (List Nat)

def v6Bytes (a : V6Acc) : Nat := a.pre.length + (a.post.getD []).length

def v6Push (a : V6Acc) (bs : List Nat) : V6Acc :=
  match a.post with
  | none => { a with pre := a.pre ++ bs }
  | some p => { a with post := some (p ++ bs) }

/-- Post-loop assembly of the Go parseIPv6 function: trailing garbage is rejected; a
short address requires an ellipsis, which expands to zero bytes at its
position; a full 16-byte address must not contain an ellipsis. -/
def v6Finish (s : List Char) (acc : V6Acc) : Option (List Nat) :=
  if s ≠ [] then none
  else if v6Bytes acc < 16 then
    match acc.post with
    | none => none
    | some p => some (acc.pre ++ List.replicate (16 - v6Bytes acc) 0 ++ p)
  else
    match acc.post with
    | none => some acc.pre
    | some _ => none

/-- Write one 16-bit group as its two bytes, exactly as Go stores
byte(n>>8) and byte(n). -/
def v6PushGroup (acc : V6Acc) (n : Nat) : V6Acc :=
  v6Push acc [(n >>> 8) % 256, n % 256]

/-- The group loop of the Go parseIPv6 function.  Each iteration consumes one 16-bit
hex group (two bytes) or a trailing embedded IPv4 address; the Go loop runs
while fewer than 16 bytes are written, so it iterates at most eight times and
a fuel of 8 is exact.  Dropping (xtoi s).2.1 + 1 characters is the Go s[c:]
followed by s[1:]. -/
def parseIPv6Loop : Nat → List Char → V6Acc → Option (List Nat)
  | fuel, s, acc =>
    if 16 ≤ v6Bytes acc then v6Finish s acc
    else
      match fuel with
      | 0 => none
      | fuel + 1 =>
        if ¬ (xtoi s).2.2 ∨ 0xFFFF < (xtoi s).1 then none
        else if (xtoi s).2.1 < s.length ∧ s.get? (xtoi s).2.1 = some '.' then
          if acc.post = none ∧ v6Bytes acc ≠ 12 then none
          else if 16 < v6Bytes acc + 4 then none
          else
            match parseIPv4 s with
            | none => none
            | some ip4 => v6Finish [] (v6Push acc ip4)
        else if s.drop (xtoi s).2.1 = [] then
          v6Finish [] (v6PushGroup acc (xtoi s).1)
        else if (s.drop (xtoi s).2.1).head? ≠ some ':' ∨ (s.drop (xtoi s).2.1).length = 1 then
          none
        else if (s.drop ((xtoi s).2.1 + 1)).head? = some ':' then
          if (v6PushGroup acc (xtoi s).1).post ≠ none then none
          else if s.drop ((xtoi s).2.1 + 2) = [] then
            v6Finish [] { v6PushGroup acc (xtoi s).1 with post := some [] }
          else
            parseIPv6Loop fuel (s.drop ((xtoi s).2.1 + 2))
              { v6PushGroup acc (xtoi s).1 with post := some [] }
        else
          parseIPv6Loop fuel (s.drop ((xtoi s).2.1 + 1)) (v6PushGroup acc (xtoi s).1)

/-- parseIPv6 of the Go net package (zones are not accepted here, exactly as
in ParseCIDR): an optional leading `::`, then the group loop. -/
def parseIPv6 : List Char → Option (List Nat)
  | ':' :: ':' :: rest =>
    if rest = [] then some (List.replicate 16 0)
    else parseIPv6Loop 8 rest ⟨[], some []⟩
  | s => parseIPv6Loop 8 s ⟨[], none⟩

/-- Byte list of net.CIDRMask(ones, 8*l): leading full bytes, one partial
byte of high bits, zero bytes after. -/
def cidrMaskBytes : Nat → Nat → List Nat
  | _, 0 => []
  | n, l + 1 =>
    if 8 ≤ n then 255 :: cidrMaskBytes (n - 8) l
    else (255 ^^^ (255 >>> n)) :: cidrMaskBytes 0 l

/-- net.CIDRMask: nil (none) outside the 32/128-bit shapes or when ones
exceeds bits. -/
def cidrMask (ones bits : Nat) : Option (List Nat) :=
  if bits ≠ 32 ∧ bits ≠ 128 then none
  else if bits < ones then none
  else some (cidrMaskBytes ones (bits / 8))

/-- The 12-byte prefix marking an IPv4-mapped IPv6 address. -/
def v4InV6Prefix : List Nat := [0, 0, 0, 0, 0, 0, 0, 0, 0, 0, 255, 255]

/-- net.IP.To4: a 4-byte address is returned as is, a 16-byte IPv4-mapped
address is narrowed to its last four bytes, anything else gives nil. -/
def to4 (ip : List Nat) : Option (List Nat) :=
  if ip.length = 4 then some ip
  else if ip.length = 16 ∧ ip.take 12 = v4InV6Prefix then some (ip.drop 12)
  else none

/-- net.IP.Mask: adapt a 16-byte all-ones-prefixed mask to a 4-byte address
or a 4-byte mask to an IPv4-mapped 16-byte address, then AND bytewise;
mismatched lengths give nil. -/
def ipMask (ip mask : List Nat) : Option (List Nat) :=
  let mask' := if mask.length = 16 ∧ ip.length = 4 ∧ mask.take 12 = List.replicate 12 255
    then mask.drop 12 else mask
  let ip' := if mask'.length = 4 ∧ ip.length = 16 ∧ ip.take 12 = v4InV6Prefix
    then ip.drop 12 else ip
  if ip'.length ≠ mask'.length then none
  else some (List.zipWith (fun a b => a &&& b) ip' mask')

/-- Decimal rendering of one byte, as the net uitoa/ubtoa helpers produce it. -/
def renderByte (n : Nat) : List Char :=
  if n < 10 then [Char.ofNat (48 + n)]
  else if n < 100 then [Char.ofNat (48 + n / 10), Char.ofNat (48 + n % 10)]
  else [Char.ofNat (48 + n / 100), Char.ofNat (48 + n / 10 % 10), Char.ofNat (48 + n % 10)]

/-- Dotted-quad rendering of a 4-byte address (To4 output always has four
bytes, so the catch-all is unreachable). -/
def renderV4 (l : List Nat) : List Char :=
  match l with
  | [a, b, c, d] =>
    renderByte a ++ '.' :: (renderByte b ++ '.' :: (renderByte c ++ '.' :: renderByte d))
  | _ => []

def hexDigitChar (d : Nat) : Char :=
  if d < 10 then Char.ofNat (48 + d) else Char.ofNat (87 + d)

/-- The net appendHex helper: lowercase hex of a 16-bit group without leading zeros. -/
def renderHexGroup (n : Nat) : List Char :=
  if n = 0 then ['0']
  else (List.range 8).reverse.filterMap (fun j =>
    let v := n >>> (j * 4)
    if 0 < v then some (hexDigitChar (v &&& 15)) else none)

/-- The net hexString helper, used by IP.String for malformed lengths only. -/
def hexString (bs : List Nat) : List Char :=
  bs.foldr (fun b acc => hexDigitChar (b >>> 4) :: hexDigitChar (b &&& 15) :: acc) []

/-- 16-bit groups of a byte list. -/
def groupsOf : List Nat → List Nat
  | a :: b :: rest => (a * 256 + b) :: groupsOf rest
  | _ => []

/-- Per-group flags marking the all-zero byte pairs (p[j] and p[j+1] both
zero in the Go scan). -/
def zeroPairFlags : List Nat → List Bool
  | a :: b :: rest => (decide (a = 0) && decide (b = 0)) :: zeroPairFlags rest
  | _ => []

/-- Length of the zero run starting at group index i. -/
def runLenFrom (z : List Bool) (i : Nat) : Nat :=
  ((z.drop i).takeWhile id).length

/-- The zero-run scan of net.IP.String, over group indices: keep the first
strictly-longest run, continuing after it.  The index grows every iteration
over the eight groups, so a fuel of 8 is exact. -/
def bestZeroRunLoop : Nat → List Bool → Nat → Nat × Nat → Nat × Nat
  | 0, _, _, best => best
  | fuel + 1, z, i, best =>
    if z.length ≤ i then best
    else
      let j := i + runLenFrom z i
      if i < j ∧ best.2 < j - i then bestZeroRunLoop fuel z j (i, j - i)
      else bestZeroRunLoop fuel z (i + 1) best

/-- Best zero run, discarded when it covers at most one group (the net
`e1-e0 <= 2` byte check: `::` never shortens a single zero group). -/
def bestZeroRun (z : List Bool) : Option (Nat × Nat) :=
  let best := bestZeroRunLoop 8 z 0 (0, 0)
  if best.2 ≤ 1 then none else some best

/-- The rendering loop of net.IP.String for 16-byte addresses: groups in hex
separated by colons, with `::` replacing the chosen zero run (e0 = 8 encodes
the absence of a run).  At most nine calls occur, so a fuel of 9 is exact. -/
def v6StringLoop : Nat → List Nat → Nat → Nat → Nat → List Char
  | 0, _, _, _, _ => []
  | fuel + 1, gs, e0, len, k =>
    if 8 ≤ k then []
    else if k = e0 then
      let k' := k + len
      if 8 ≤ k' then [':', ':']
      else ':' :: ':' :: (renderHexGroup (gs.getD k' 0) ++ v6StringLoop fuel gs e0 len (k' + 1))
    else
      (if k = 0 then ([] : List Char) else [':']) ++ renderHexGroup (gs.getD k 0) ++
        v6StringLoop fuel gs e0 len (k + 1)

/-- net.IP.String: dotted quad when To4 applies, `?`-prefixed hex for
malformed lengths, otherwise colon-separated groups with zero-run
compression. -/
def ipString (ip : List Nat) : List Char :=
  if ip = [] then "<nil>".data
  else
    match to4 ip with
    | some p4 => renderV4 p4
    | none =>
      if ip.length ≠ 16 then '?' :: hexString ip
      else
        let gs := groupsOf ip
        match bestZeroRun (zeroPairFlags ip) with
        | some (e0, len) => v6StringLoop 9 gs e0 len 0
        | none => v6StringLoop 9 gs 8 0 0

/-- Inner loop of the net simpleMaskLength helper on one non-0xff byte: count leading
one bits, the remainder must be zero. -/
def countOnesThenZeros : Nat → Nat → Option Nat
  | 0, v => if v ≠ 0 then none else some 0
  | fuel + 1, v =>
    if v &&& 128 ≠ 0 then (countOnesThenZeros fuel (v * 2 % 256)).map (· + 1)
    else if v ≠ 0 then none else some 0

/-- The net simpleMaskLength helper: number of leading one bits of a canonical mask,
none (the Go value -1) if the mask is not ones-then-zeros. -/
def simpleMaskLength : List Nat → Option Nat
  | [] => some 0
  | v :: rest =>
    if v = 255 then (simpleMaskLength rest).map (8 + ·)
    else
      match countOnesThenZeros 8 v with
      | none => none
      | some k => if rest.all (fun b => b = 0) then some k else none

/-- net.IPMask.Size: (ones, bits), or (0, 0) for a non-canonical mask. -/
def maskSize (m : List Nat) : Nat × Nat :=
  match simpleMaskLength m with
  | none => (0, 0)
  | some n => (n, 8 * m.length)

/-- net.IPNet: masked network address and mask, as ParseCIDR builds them. -/
structure IPNet where
  ip : List Nat
  mask : List Nat
deriving DecidableEq

/-- The net networkNumberAndMask helper: normalize the network address via To4 and
adapt the mask length to it. -/
def networkNumberAndMask (n : IPNet) : Option (List Nat × List Nat) :=
  let ipOpt : Option (List Nat) :=
    match to4 n.ip with
    | some p4 => some p4
    | none => if n.ip.length = 16 then some n.ip else none
  match ipOpt with
  | none => none
  | some ip =>
    if n.mask.length = 4 then
      if ip.length = 4 then some (ip, n.mask) else none
    else if n.mask.length = 16 then
      if ip.length = 4 then some (ip, n.mask.drop 12) else some (ip, n.mask)
    else none

/-- net.IPNet.Contains. -/
def netContains (n : IPNet) (x : List Nat) : Bool :=
  match networkNumberAndMask n with
  | none => false
  | some (nn, m) =>
    let x' := match to4 x with
      | some p4 => p4
      | none => x
    if x'.length ≠ nn.length then false
    else (List.zip nn (List.zip m x')).all (fun t => (t.1 &&& t.2.1) = (t.2.2 &&& t.2.1))

/-- Index of the first '/', splitting the string there. -/
def splitSlash : List Char → Option (List Char × List Char)
  | [] => none
  | c :: rest =>
    if c = '/' then some ([], rest)
    else (splitSlash rest).map (fun p => (c :: p.1, p.2))

/-- Mask and network construction shared by both address widths of
net.ParseCIDR: parse the whole mask string as a decimal prefix length bounded
by the address width and build the masked network. -/
def parseCIDRMask (ip : List Nat) (iplen : Nat) (maskStr : List Char) :
    Option (List Nat × IPNet) :=
  if ¬ (dtoi maskStr).2.2 ∨ (dtoi maskStr).2.1 ≠ maskStr.length ∨
      8 * iplen < (dtoi maskStr).1 then none
  else do
    let m ← cidrMask (dtoi maskStr).1 (8 * iplen)
    let masked ← ipMask ip m
    some (ip, ⟨masked, m⟩)

/-- net.ParseCIDR: split at the first '/', parse the address (dotted IPv4
first, IPv6 otherwise), then the mask. -/
def parseCIDR (s : List Char) : Option (List Nat × IPNet) := do
  let (addr, maskStr) ← splitSlash s
  match parseIPv4 addr with
  | some ip => parseCIDRMask ip 4 maskStr
  | none =>
    match parseIPv6 addr with
    | some ip => parseCIDRMask ip 16 maskStr
    | none => none

/-- The 10.0.0.0/8 private network of isPrivateNetwork (the parse of the
literal always succeeds; the fallback is never taken). -/
def privateNet10 : IPNet :=
  match parseCIDR "10.0.0.0/8".data with
  | some p => p.2
  | none => ⟨[], []⟩

/-- The 172.16.0.0/12 private network. -/
def privateNet172 : IPNet :=
  match parseCIDR "172.16.0.0/12".data with
  | some p => p.2
  | none => ⟨[], []⟩

/-- The 192.168.0.0/16 private network. -/
def privateNet192 : IPNet :=
  match parseCIDR "192.168.0.0/16".data with
  | some p => p.2
  | none => ⟨[], []⟩

/-- isPrivateNetwork (src/unnamed/part_000, lines 104-111). -/
def isPrivateNetwork (ipNet : IPNet) : Bool :=
  netContains privateNet10 ipNet.ip || netContains privateNet172 ipNet.ip ||
    netContains privateNet192 ipNet.ip

inductive CIDRError where
  | emptyInput
  | invalidFormat
  | hostAddress
  | notPrivate
  | subnetTooSmall
deriving DecidableEq

/-- validateCIDR (src/unnamed/part_000, lines 74-102): reject the empty
string, parse failures, addresses differing from their masked network address
(compared through their renderings, as the source compares ip.String()),
networks outside the three private ranges, and 32-bit masks longer than
/24. -/
def validateCIDR (cidr : List Char) : Option CIDRError :=
  if cidr = [] then some .emptyInput
  else
    match parseCIDR cidr with
    | none => some .invalidFormat
    | some (ip, ipNet) =>
      if ipString ip ≠ ipString ipNet.ip then some .hostAddress
      else if ¬ isPrivateNetwork ipNet then some .notPrivate
      else if (maskSize ipNet.mask).2 = 32 ∧ 24 < (maskSize ipNet.mask).1 then
        some .subnetTooSmall
      else none

/-! ### Structural facts about the parsers -/

/-! ### Injectivity of the dotted-quad rendering -/

def allDigits (s : List Char) : Bool := s.all (fun c => '0' ≤ c ∧ c ≤ '9')

/-! ### Arithmetic characterization of the private-range membership test -/

/-- Spec wording: the three private IPv4 ranges of the claim, as conditions
on the first two bytes of a four-byte network address. -/
def arithPrivate4 : List Nat → Bool
  | [a, b, _, _] =>
    decide (a = 10) || (decide (a = 172) && decide (b &&& 240 = 16)) ||
      (decide (a = 192) && decide (b = 168))
  | _ => false

/-- Spec wording: an IPv4-mapped IPv6 network address (::ffff:a.b.c.d) whose
embedded IPv4 address lies in one of the three private ranges. -/
def isMapped4Private (l : List Nat) : Bool :=
  decide (l.length = 16) && decide (l.take 12 = v4InV6Prefix) && arithPrivate4 (l.drop 12)

/-! ### The claim, its counterexample, and the amended statement -/

/-- The success condition asserted by the original claim: the input parses as
a dotted IPv4 CIDR whose address equals its masked network address, whose
network lies inside the three private ranges, and whose prefix length is at
most 24. -/
def claimedOK (s : List Char) : Bool :=
  match parseCIDR s with
  | none => false
  | some (ip, net) =>
    decide (ip.length = 4) && decide (ip = net.ip) && arithPrivate4 net.ip &&
      decide ((maskSize net.mask).1 ≤ 24)

/-- The amended success condition: either the IPv4 condition of the original claim,
or an IPv6-notation CIDR whose textual address form equals that of its masked
network address and whose masked network address is an IPv4-mapped address
(::ffff:a.b.c.d) inside the private ranges, with no prefix-length bound. -/
def amendedOK (s : List Char) : Bool :=
  match parseCIDR s with
  | none => false
  | some (ip, net) =>
    (decide (ip.length = 4) && decide (ip = net.ip) && arithPrivate4 net.ip &&
      decide ((maskSize net.mask).1 ≤ 24)) ||
    (decide (ip.length = 16) && decide (ipString ip = ipString net.ip) &&
      isMapped4Private net.ip)

/-! ## Orchestrator input phase (main, src/unnamed/part_000, lines 500-541) -/

/-- The Config record of the source (src/unnamed/part_000, lines 29-41). -/
structure Config where
  Namespace : List Char
  NetworkCIDR : List Char
  Domain : List Char
  BaseDN : List Char
  AdminPass : List Char
  ConfigPass : List Char
  Kubeconfig : List Char
  ReleaseName : List Char
  OpenLDAPRepo : List Char
  OpenLDAPChart : List Char
  OpenLDAPVer : List Char
deriving DecidableEq

/-- ask (src/unnamed/part_000, lines 48-61) over a script of operator inputs:
read one line (empty when the stream is exhausted) and trim it. -/
def ask1 : List (List Char) → List Char × List (List Char)
  | [] => ([], [])
  | x :: rest => (goTrimSpace x, rest)

/-- The network-block prompt loop of main (src/unnamed/part_000, lines
516-524): ask again until validateCIDR accepts; none when the script runs out
while the program is still re-prompting. -/
def readCIDRLoop : List (List Char) → Option (List Char × List (List Char))
  | [] => none
  | x :: rest =>
    if validateCIDR (goTrimSpace x) = none then some (goTrimSpace x, rest)
    else readCIDRLoop rest

inductive RunOutcome where
  | fatal (msg : List Char)
  | stillPrompting
  | proceeds (cfg : Config)
deriving DecidableEq

/-- The input-validation phase of main over a script of operator inputs: the
network block is re-prompted in a loop until valid; an empty trimmed domain or
admin credential is fatal (`must` prints the error and the process exits); a
blank config credential falls back to the admin credential; the remaining
Config fields carry the constants of main (src/unnamed/part_000, lines 500-541). -/
def inputPhase (inputs : List (List Char)) : RunOutcome :=
  match readCIDRLoop inputs with
  | none => .stillPrompting
  | some (cidr, rest) =>
    match ask1 rest with
    | (domain, rest2) =>
      if domain = [] then .fatal "domain is required".data
      else
        match ask1 rest2 with
        | (adminPass, rest3) =>
          if adminPass = [] then .fatal "admin password required".data
          else
            match ask1 rest3 with
            | (configPass, _) =>
              .proceeds
                { Namespace := "infra".data
                  NetworkCIDR := cidr
                  Domain := domain
                  BaseDN := baseDNFromDomain domain
                  AdminPass := adminPass
                  ConfigPass := if configPass = [] then adminPass else configPass
                  Kubeconfig := "/etc/rancher/k3s/k3s.yaml".data
                  ReleaseName := "ldap".data
                  OpenLDAPRepo := "https://jp-gouin.github.io/helm-openldap/".data
                  OpenLDAPChart := "helm-openldap/openldap-stack-ha".data
                  OpenLDAPVer := [] }

/-! ## PostInstallApplier: template rendering of applyMemberOfJob -/

/-- Does the pattern lead the string? -/
def leadsWith : List Char → List Char → Bool
  | [], _ => true
  | _ :: _, [] => false
  | p :: ps, c :: cs => decide (p = c) && leadsWith ps cs

/-- Fuel-driven core of strings.ReplaceAll: replace each leftmost
non-overlapping occurrence.  The fuel strictly bounds the number of consumed
characters, so with fuel `s.length` (and a nonempty pattern) it never runs
out. -/
def replaceAllAux : Nat → List Char → List Char → List Char → List Char
  | 0, s, _, _ => s
  | fuel + 1, s, pat, rep =>
    match s with
    | [] => []
    | c :: rest =>
      if leadsWith pat (c :: rest) then
        rep ++ replaceAllAux fuel ((c :: rest).drop pat.length) pat rep
      else c :: replaceAllAux fuel rest pat rep

/-- strings.ReplaceAll, for the nonempty literal placeholder patterns used by
applyMemberOfJob (the Go empty-pattern behavior is irrelevant here and mapped
to the identity). -/
def replaceAll (s pat rep : List Char) : List Char :=
  if pat = [] then s else replaceAllAux s.length s pat rep

/-- Is the pattern a substring? -/
def containsSub (s pat : List Char) : Bool :=
  match s with
  | [] => leadsWith pat []
  | c :: rest => leadsWith pat (c :: rest) || containsSub rest pat

/-- Modelled from the spec: the embedded asset assets/memberof-job.yaml.tmpl
is not under src/; per the PostInstallApplier section of the spec it is a
pre-defined one-shot remediation-job manifest parameterized by exactly the
four literal placeholders for release name, namespace, base identifier, and
admin credential. -/
def memberOfJobTemplate : List Char :=
  ("apiVersion: batch/v1\nkind: Job\nmetadata:\n  name: \x7b\x7b.ReleaseName\x7d\x7d-memberof-setup\n  namespace: \x7b\x7b.Namespace\x7d\x7d\nspec:\n  template:\n    spec:\n      restartPolicy: Never\n      containers:\n      - name: memberof-setup\n        image: docker.io/jpgouin/openldap:2.6.9-fix\n        command:\n        - /bin/sh\n        - -c\n        - >\n          ldapmodify -H ldap://\x7b\x7b.ReleaseName\x7d\x7d.\x7b\x7b.Namespace\x7d\x7d.svc:389\n          -D cn=admin,cn=config -w \x7b\x7b.AdminPass\x7d\x7d -f /ldifs/memberof.ldif &&\n          ldapsearch -x -D cn=admin,\x7b\x7b.BaseDN\x7d\x7d -w \x7b\x7b.AdminPass\x7d\x7d\n          -b \x7b\x7b.BaseDN\x7d\x7d -s base\n").data

/-- The substitution step of applyMemberOfJob (src/unnamed/part_000, lines
479-484): literal replacement of the four placeholders, in source order. -/
def renderMemberOfJob (cfg : Config) : List Char :=
  replaceAll (replaceAll (replaceAll (replaceAll memberOfJobTemplate
    "\x7b\x7b.ReleaseName\x7d\x7d".data cfg.ReleaseName)
    "\x7b\x7b.Namespace\x7d\x7d".data cfg.Namespace)
    "\x7b\x7b.BaseDN\x7d\x7d".data cfg.BaseDN)
    "\x7b\x7b.AdminPass\x7d\x7d".data cfg.AdminPass

/-- The configuration produced by the C8 scenario. -/
def scenarioConfig : Config :=
  { Namespace := "infra".data
    NetworkCIDR := "192.168.100.0/24".data
    Domain := "armani.lab".data
    BaseDN := "dc=armani,dc=lab".data
    AdminPass := "S3cret!".data
    ConfigPass := "S3cret!".data
    Kubeconfig := "/etc/rancher/k3s/k3s.yaml".data
    ReleaseName := "ldap".data
    OpenLDAPRepo := "https://jp-gouin.github.io/helm-openldap/".data
    OpenLDAPChart := "helm-openldap/openldap-stack-ha".data
    OpenLDAPVer := [] }

/-! ## Theorems -/

theorem filter_map_eq_filterMap (pre : List Char) (l : List (List Char)) :
    (l.filter (fun p => p ≠ [])).map (fun p => pre ++ p) =
      l.filterMap (fun seg => if seg = [] then none else some (pre ++ seg)) := by
  induction l with
  | nil => rfl
  | cons h t ih =>
    by_cases hh : h = []
    · subst hh
      simpa using ih
    · simpa [hh] using ih

/-- C3: for every domain string, the derived base identifier is obtained by
splitting the trimmed domain on dots, discarding empty segments, prefixing
each remaining segment with "dc=" and joining with commas; in particular
"example.lab" maps to "dc=example,dc=lab" and "a..b" to "dc=a,dc=b". -/
theorem baseDNFromDomain_spec :
    (∀ d, baseDNFromDomain d = deriveBaseIdentifier d) ∧
    baseDNFromDomain "example.lab".data = "dc=example,dc=lab".data ∧
    baseDNFromDomain "a..b".data = "dc=a,dc=b".data := by
  refine ⟨fun d => ?_, by decide, by decide⟩
  exact congrArg joinComma (filter_map_eq_filterMap "dc=".data (goSplitDot (goTrimSpace d)))

/-- C7: fetching the decoded secret field returns the base64-decoded plaintext
of the command output on success, and the empty string on any failure at any
step: command error, empty output, or base64-decode failure.  (The function is
total, so it never raises.) -/
theorem getActualAdminPassword_spec :
    (∀ out, getActualAdminPassword out true = []) ∧
    (∀ e, getActualAdminPassword [] e = []) ∧
    (∀ out, goBase64Decode out = none → getActualAdminPassword out false = []) ∧
    (∀ out bs, out ≠ [] → goBase64Decode out = some bs →
      getActualAdminPassword out false = bs) := by
  refine ⟨fun out => ?_, fun e => ?_, fun out h => ?_, fun out bs hne h => ?_⟩
  · simp [getActualAdminPassword]
  · simp [getActualAdminPassword]
  · simp [getActualAdminPassword, h]
  · simp [getActualAdminPassword, hne, h]

theorem getActualAdminPassword_spec_witness :
    getActualAdminPassword "UzNjcmV0IQ==".data false = [83, 51, 99, 114, 101, 116, 33] ∧
    getActualAdminPassword "not-base64!".data false = [] := by
  constructor
  · exact getActualAdminPassword_spec.2.2.2 _ _ (by decide) (by decide)
  · exact getActualAdminPassword_spec.2.2.1 _ (by decide)

theorem valNat_append_digit (l : List Char) (c : Char) :
    valNat (l ++ [c]) = valNat l * 10 + (c.toNat - 48) := by
  simp [valNat, List.foldl_append]

theorem digit_char_val : ∀ d < 10, (Char.ofNat (48 + d)).toNat - 48 = d := by decide

theorem valNat_natToCharsAux :
    ∀ fuel n, n < fuel → valNat (natToCharsAux fuel n) = n := by
  intro fuel
  induction fuel with
  | zero => intro n h; omega
  | succ f ih =>
    intro n h
    by_cases h10 : n < 10
    · simp only [natToCharsAux, if_pos h10]
      have := digit_char_val n h10
      simp [valNat, this]
    · simp only [natToCharsAux, if_neg h10]
      rw [valNat_append_digit, ih (n / 10) (by omega),
        digit_char_val (n % 10) (Nat.mod_lt _ (by omega))]
      omega

theorem valNat_natToChars (n : Nat) : valNat (natToChars n) = n :=
  valNat_natToCharsAux (n + 1) n (Nat.lt_succ_self n)

theorem natToChars_injective {a b : Nat} (h : natToChars a = natToChars b) : a = b := by
  have := congrArg valNat h
  rwa [valNat_natToChars, valNat_natToChars] at this

theorem fsRead_fsRemove (fs : FSFiles) (p : List Char) :
    fsRead (fsRemove fs p) p = none := by
  induction fs with
  | nil => rfl
  | cons h t ih =>
    by_cases hp : h.1 = p
    · simp [fsRemove, List.filter, hp] at ih ⊢
      exact ih
    · simp [fsRemove, fsRead, List.filter, List.find?, hp] at ih ⊢
      try exact ih

/-- C9: every manifest-apply call writes the manifest to the timestamp-named
temporary file, invokes the apply verb of the cluster client on exactly that file,
removes the file on every exit path whatever the apply outcome, and distinct
timestamps give distinct file names. -/
theorem applyYAML_spec :
    (∀ env fs yaml,
      (applyYAML env fs yaml).2.2 =
        [ApplyStep.wroteTemp (tempFileName env.tempDir env.nowUnixNano) yaml,
         ApplyStep.ranApply (tempFileName env.tempDir env.nowUnixNano),
         ApplyStep.removedTemp (tempFileName env.tempDir env.nowUnixNano)] ∧
      fsRead (fsWrite fs (tempFileName env.tempDir env.nowUnixNano) yaml)
        (tempFileName env.tempDir env.nowUnixNano) = some yaml ∧
      fsRead (applyYAML env fs yaml).2.1 (tempFileName env.tempDir env.nowUnixNano) = none ∧
      (applyYAML env fs yaml).1 =
        (if env.applyOK then Except.ok () else Except.error ())) ∧
    (∀ dir t1 t2, t1 ≠ t2 → tempFileName dir t1 ≠ tempFileName dir t2) := by
  constructor
  · intro env fs yaml
    refine ⟨rfl, by simp [fsRead, fsWrite, List.find?], ?_, rfl⟩
    exact fsRead_fsRemove _ _
  · intro dir t1 t2 hne heq
    apply hne
    apply natToChars_injective
    have h1 : (dir ++ "/infractl-".data) ++ (natToChars t1 ++ ".yaml".data) =
        (dir ++ "/infractl-".data) ++ (natToChars t2 ++ ".yaml".data) := by
      simpa [tempFileName, List.append_assoc] using heq
    have h2 := List.append_cancel_left h1
    exact List.append_cancel_right h2

theorem applyYAML_spec_witness :
    tempFileName "/tmp".data 1700000000000000001 ≠ tempFileName "/tmp".data 1700000000000000002 ∧
    (applyYAML ⟨"/tmp".data, 7, false⟩ [] "kind: Job".data).2.1 = [] := by
  constructor
  · exact applyYAML_spec.2 _ _ _ (by decide)
  · have h := (applyYAML_spec.1 ⟨"/tmp".data, 7, false⟩ [] "kind: Job".data).2.2.1
    revert h
    decide

theorem mem_updateEntries (l : List RepoEntry) (e : RepoEntry) :
    e ∈ updateEntries l e := by
  induction l with
  | nil => simp [updateEntries]
  | cons x xs ih =>
    by_cases hx : x.name = e.name
    · simp [updateEntries, hx]
    · simp only [updateEntries, if_neg hx]
      exact List.mem_cons_of_mem x ih

/-- The registration file after a successful addHelmRepo call: the loaded
entries (empty on load error) with the new entry upserted. -/
theorem addHelmRepo_reg (env : RepoEnv) (st : RepoState) (name url : List Char)
    (st' : RepoState) (h : addHelmRepo env st name url = .ok st') :
    st'.reg = .entries (updateEntries
      (match loadRepoFile st.reg with
        | .ok l => l
        | .error _ => []) ⟨name, url⟩) := by
  by_cases hc : env.chartRepoOK
  · by_cases hd : env.directIndex
    · simp [addHelmRepo, hc, hd] at h
      subst h
      rfl
    · cases hcu : env.curlIndex with
      | none => simp [addHelmRepo, hc, hd, hcu] at h
      | some output =>
        simp [addHelmRepo, hc, hd, hcu] at h
        subst h
        rfl
  · simp [addHelmRepo, hc] at h

/-- C5: with the direct index download failing, a failing HTTP fallback makes
the whole operation a hard error, while a succeeding fallback leaves the cache
directory present, the cache file `<cacheDir>/<name>-index.yaml` holding the
fetched bytes, and the registration file containing the repository entry. -/
theorem addHelmRepo_fallback_spec :
    ∀ env st name url, env.chartRepoOK = true → env.directIndex = false →
      ((env.curlIndex = none →
        addHelmRepo env st name url = .error .downloadFailed) ∧
       (∀ output, env.curlIndex = some output →
        ∃ st', addHelmRepo env st name url = .ok st' ∧
          env.cacheDir ∈ st'.dirs ∧
          fsRead st'.files (cacheIndexPath env.cacheDir name) = some output ∧
          ∃ l, st'.reg = .entries l ∧ RepoEntry.mk name url ∈ l)) := by
  intro env st name url hc hd
  constructor
  · intro hcu
    simp [addHelmRepo, hc, hd, hcu]
  · intro output hcu
    refine ⟨⟨if env.cacheDir ∈ st.dirs then st.dirs else env.cacheDir :: st.dirs,
        fsWrite st.files (cacheIndexPath env.cacheDir name) output,
        .entries (updateEntries
          (match loadRepoFile st.reg with
            | .ok l => l
            | .error _ => []) ⟨name, url⟩)⟩, ?_, ?_, ?_, ?_⟩
    · simp [addHelmRepo, hc, hd, hcu]
    · by_cases hmem : env.cacheDir ∈ st.dirs <;> simp [hmem]
    · simp [fsRead, fsWrite, List.find?]
    · exact ⟨_, rfl, mem_updateEntries _ _⟩

theorem addHelmRepo_fallback_spec_witness :
    ∃ st', addHelmRepo ⟨true, false, some "apiVersion: v1".data, "/cache".data⟩
        ⟨[], [], .absent⟩ "helm-openldap".data "https://example.test/".data = .ok st' ∧
      "/cache".data ∈ st'.dirs ∧
      fsRead st'.files (cacheIndexPath "/cache".data "helm-openldap".data) =
        some "apiVersion: v1".data ∧
      ∃ l, st'.reg = .entries l ∧
        RepoEntry.mk "helm-openldap".data "https://example.test/".data ∈ l :=
  (addHelmRepo_fallback_spec ⟨true, false, some "apiVersion: v1".data, "/cache".data⟩
    ⟨[], [], .absent⟩ "helm-openldap".data "https://example.test/".data rfl rfl).2
    "apiVersion: v1".data rfl

theorem names_updateEntries_superset {l : List RepoEntry} {e : RepoEntry} {y : List Char}
    (h : y ∈ l.map RepoEntry.name) : y ∈ (updateEntries l e).map RepoEntry.name := by
  induction l with
  | nil => simp at h
  | cons x xs ih =>
    by_cases hx : x.name = e.name
    · simp only [updateEntries, if_pos hx]
      simp only [List.map_cons, List.mem_cons] at h ⊢
      rcases h with h | h
      · exact Or.inl (by rw [h, hx])
      · exact Or.inr h
    · simp only [updateEntries, if_neg hx]
      simp only [List.map_cons, List.mem_cons] at h ⊢
      rcases h with h | h
      · exact Or.inl h
      · exact Or.inr (ih h)

theorem names_updateEntries_subset {l : List RepoEntry} {e : RepoEntry} {y : List Char}
    (h : y ∈ (updateEntries l e).map RepoEntry.name) :
    y ∈ l.map RepoEntry.name ∨ y = e.name := by
  induction l with
  | nil =>
    simp [updateEntries] at h
    exact Or.inr h
  | cons x xs ih =>
    by_cases hx : x.name = e.name
    · simp only [updateEntries, if_pos hx, List.map_cons, List.mem_cons] at h
      rcases h with h | h
      · exact Or.inr h
      · exact Or.inl (by
          simp only [List.map_cons, List.mem_cons]
          exact Or.inr h)
    · simp only [updateEntries, if_neg hx, List.map_cons, List.mem_cons] at h
      rcases h with h | h
      · exact Or.inl (by
          simp only [List.map_cons, List.mem_cons]
          exact Or.inl h)
      · rcases ih h with h' | h'
        · exact Or.inl (by
            simp only [List.map_cons, List.mem_cons]
            exact Or.inr h')
        · exact Or.inr h'

theorem nodup_updateEntries {l : List RepoEntry} {e : RepoEntry}
    (h : (l.map RepoEntry.name).Nodup) :
    ((updateEntries l e).map RepoEntry.name).Nodup := by
  induction l with
  | nil => simp [updateEntries]
  | cons x xs ih =>
    simp only [List.map_cons, List.nodup_cons] at h
    by_cases hx : x.name = e.name
    · simp only [updateEntries, if_pos hx, List.map_cons, List.nodup_cons]
      exact ⟨by rw [← hx]; exact h.1, h.2⟩
    · simp only [updateEntries, if_neg hx, List.map_cons, List.nodup_cons]
      refine ⟨fun hmem => ?_, ih h.2⟩
      rcases names_updateEntries_subset hmem with h' | h'
      · exact h.1 h'
      · exact hx h'

theorem filter_name_eq_nil {l : List RepoEntry} {n : List Char}
    (h : n ∉ l.map RepoEntry.name) :
    l.filter (fun e => e.name = n) = [] := by
  induction l with
  | nil => rfl
  | cons x xs ih =>
    simp only [List.map_cons, List.mem_cons, not_or] at h
    have hx : ¬ x.name = n := fun hc => h.1 hc.symm
    simp [List.filter, hx, ih h.2]

theorem filter_updateEntries_self (l : List RepoEntry) (e : RepoEntry)
    (h : (l.map RepoEntry.name).Nodup) :
    (updateEntries l e).filter (fun x => x.name = e.name) = [e] := by
  induction l with
  | nil => simp [updateEntries, List.filter]
  | cons x xs ih =>
    simp only [List.map_cons, List.nodup_cons] at h
    by_cases hx : x.name = e.name
    · simp only [updateEntries, if_pos hx]
      have hnone : xs.filter (fun y => y.name = e.name) = [] :=
        filter_name_eq_nil (by rw [← hx]; exact h.1)
      simp [List.filter, hnone]
    · simp only [updateEntries, if_neg hx]
      simp [List.filter, hx, ih h.2]

/-- C6: repository registration is an upsert keyed by name: starting from a
readable registration file with pairwise-distinct names, registering the same
name twice (possibly with different URLs) leaves exactly one entry for that
name, carrying the most recently registered URL, every previously registered
name is still present, and names stay pairwise distinct. -/
theorem addHelmRepo_upsert_idempotent :
    ∀ env1 env2 st name url1 url2 st1 st2 l0,
      st.reg = .entries l0 → (l0.map RepoEntry.name).Nodup →
      addHelmRepo env1 st name url1 = .ok st1 →
      addHelmRepo env2 st1 name url2 = .ok st2 →
      ∃ l2, st2.reg = .entries l2 ∧
        l2.filter (fun e => e.name = name) = [⟨name, url2⟩] ∧
        (∀ e ∈ l0, e.name ∈ l2.map RepoEntry.name) ∧
        (l2.map RepoEntry.name).Nodup := by
  intro env1 env2 st name url1 url2 st1 st2 l0 hreg hnodup h1 h2
  have hr1 := addHelmRepo_reg env1 st name url1 st1 h1
  rw [hreg] at hr1
  simp only [loadRepoFile] at hr1
  have hr2 := addHelmRepo_reg env2 st1 name url2 st2 h2
  rw [hr1] at hr2
  simp only [loadRepoFile] at hr2
  refine ⟨_, hr2, ?_, ?_, ?_⟩
  · exact filter_updateEntries_self _ ⟨name, url2⟩ (nodup_updateEntries hnodup)
  · intro e he
    exact names_updateEntries_superset
      (names_updateEntries_superset (List.mem_map_of_mem RepoEntry.name he))
  · exact nodup_updateEntries (nodup_updateEntries hnodup)

theorem addHelmRepo_upsert_idempotent_witness :
    ∃ l2, (RepoState.reg ⟨[], [],
        .entries (updateEntries (updateEntries [⟨"old".data, "http://old/".data⟩]
          ⟨"repo".data, "http://u1/".data⟩) ⟨"repo".data, "http://u2/".data⟩)⟩) = .entries l2 ∧
      l2.filter (fun e => e.name = "repo".data) = [⟨"repo".data, "http://u2/".data⟩] ∧
      (∀ e ∈ [RepoEntry.mk "old".data "http://old/".data], e.name ∈ l2.map RepoEntry.name) ∧
      (l2.map RepoEntry.name).Nodup := by
  have h := addHelmRepo_upsert_idempotent
    ⟨true, true, none, "/c".data⟩ ⟨true, true, none, "/c".data⟩
    ⟨[], [], .entries [⟨"old".data, "http://old/".data⟩]⟩
    "repo".data "http://u1/".data "http://u2/".data
    _ _ [⟨"old".data, "http://old/".data⟩] rfl (by decide) rfl rfl
  exact h

/-- C10: when the registration file cannot be loaded, for any reason, the
entry set is taken to be empty, so the file is rewritten holding exactly the
newly upserted entry, discarding whatever could not be loaded. -/
theorem addHelmRepo_load_error_resets :
    ∀ env st name url st',
      loadRepoFile st.reg = .error () →
      addHelmRepo env st name url = .ok st' →
      st'.reg = .entries [⟨name, url⟩] := by
  intro env st name url st' hload h
  have hr := addHelmRepo_reg env st name url st' h
  rw [hload] at hr
  exact hr

theorem addHelmRepo_load_error_resets_witness :
    (RepoState.reg ⟨[], [], .entries (updateEntries []
        ⟨"repo".data, "http://u/".data⟩)⟩) =
      .entries [⟨"repo".data, "http://u/".data⟩] := by
  have h := addHelmRepo_load_error_resets ⟨true, true, none, "/c".data⟩
    ⟨[], [], .corrupt⟩ "repo".data "http://u/".data _ rfl rfl
  exact h

/-- C4: every package-install call is configured as a fresh, non-upgrading
install with namespace creation on, no readiness wait, and a 300 second
ceiling; a successful install appends exactly the new release (so the name was
previously absent), and a second install of the same release name in the same
namespace fails with an install error instead of upgrading or duplicating. -/
theorem installChart_fresh_spec :
    (∀ r ns, (mkInstallAction r ns).createNamespace = true ∧
      (mkInstallAction r ns).wait = false ∧
      (mkInstallAction r ns).timeoutSeconds = 300) ∧
    (∀ env store r cr ns store', InstallChart env store r cr ns = .ok store' →
      store' = store ++ [(ns, r)] ∧ (ns, r) ∉ store) ∧
    (∀ env env2 store r cr cr2 ns store' p,
      InstallChart env store r cr ns = .ok store' →
      env2.locate cr2 = some p → env2.load p = some () →
      InstallChart env2 store' r cr2 ns = .error HelmError.installFailed) := by
  refine ⟨fun r ns => ⟨rfl, rfl, rfl⟩, ?_, ?_⟩
  · intro env store r cr ns store' h
    cases hl : env.locate cr with
    | none => simp [InstallChart, hl] at h
    | some path =>
      cases hld : env.load path with
      | none => simp [InstallChart, hl, hld] at h
      | some u =>
        simp [InstallChart, hl, hld, runInstallAction, mkInstallAction] at h
        by_cases hmem : (ns, r) ∈ store
        · simp [hmem] at h
        · simp [hmem] at h
          exact ⟨h.symm, hmem⟩
  · intro env env2 store r cr cr2 ns store' p h hl2 hld2
    have hsub : store' = store ++ [(ns, r)] := by
      cases hl : env.locate cr with
      | none => simp [InstallChart, hl] at h
      | some path =>
        cases hld : env.load path with
        | none => simp [InstallChart, hl, hld] at h
        | some u =>
          simp [InstallChart, hl, hld, runInstallAction, mkInstallAction] at h
          by_cases hmem : (ns, r) ∈ store
          · simp [hmem] at h
          · simp [hmem] at h
            exact h.symm
    simp [InstallChart, hl2, hld2, runInstallAction, mkInstallAction, hsub]

theorem installChart_fresh_spec_witness :
    InstallChart ⟨fun _ => some "chart.tgz".data, fun _ => some ()⟩
      [("infra".data, "ldap".data)] "ldap".data "helm-openldap/openldap-stack-ha".data
      "infra".data = .error HelmError.installFailed := by
  have h := installChart_fresh_spec.2.2
    ⟨fun _ => some "chart.tgz".data, fun _ => some ()⟩
    ⟨fun _ => some "chart.tgz".data, fun _ => some ()⟩
    [] "ldap".data "helm-openldap/openldap-stack-ha".data
    "helm-openldap/openldap-stack-ha".data "infra".data
    [("infra".data, "ldap".data)] "chart.tgz".data rfl rfl rfl
  exact h

theorem list_len4 {l : List Nat} (h : l.length = 4) :
    ∃ a b c d, l = [a, b, c, d] := by
  cases l with
  | nil => simp at h
  | cons a t =>
    cases t with
    | nil => simp at h
    | cons b t2 =>
      cases t2 with
      | nil => simp at h
      | cons c t3 =>
        cases t3 with
        | nil => simp at h
        | cons d t4 =>
          cases t4 with
          | nil => exact ⟨a, b, c, d, rfl⟩
          | cons e t5 => simp at h

theorem parseV4Field_le {s : List Char} {n : Nat} {rest : List Char}
    (h : parseV4Field s = some (n, rest)) : n ≤ 255 := by
  unfold parseV4Field at h
  split at h
  · exact absurd h (by simp)
  · split at h
    · exact absurd h (by simp)
    · rename_i h1 h2
      push_neg at h1
      simp only [Option.some.injEq, Prod.mk.injEq] at h
      omega

theorem parseIPv4_inv {s : List Char} {ip : List Nat} (h : parseIPv4 s = some ip) :
    ∃ a b c d, ip = [a, b, c, d] ∧ a ≤ 255 ∧ b ≤ 255 ∧ c ≤ 255 ∧ d ≤ 255 := by
  simp only [parseIPv4, bind, Option.bind_eq_some] at h
  obtain ⟨⟨a, s1⟩, ha, h⟩ := h
  obtain ⟨s1', _, h⟩ := h
  obtain ⟨⟨b, s2⟩, hb, h⟩ := h
  obtain ⟨s2', _, h⟩ := h
  obtain ⟨⟨c, s3⟩, hc, h⟩ := h
  obtain ⟨s3', _, h⟩ := h
  obtain ⟨⟨d, s4⟩, hd, h⟩ := h
  split at h
  · simp only [Option.some.injEq] at h
    exact ⟨a, b, c, d, h.symm, parseV4Field_le ha, parseV4Field_le hb,
      parseV4Field_le hc, parseV4Field_le hd⟩
  · exact absurd h (by simp)

theorem v6Bytes_push (acc : V6Acc) (bs : List Nat) :
    v6Bytes (v6Push acc bs) = v6Bytes acc + bs.length := by
  cases hpost : acc.post with
  | none => simp [v6Push, v6Bytes, hpost]
  | some p => simp [v6Push, v6Bytes, hpost]; omega

theorem v6Finish_length {s : List Char} {acc : V6Acc} {l : List Nat}
    (hb : v6Bytes acc ≤ 16) (h : v6Finish s acc = some l) : l.length = 16 := by
  unfold v6Finish at h
  split at h
  · exact absurd h (by simp)
  · split at h
    · rename_i hlt
      cases hpost : acc.post with
      | none => rw [hpost] at h; exact absurd h (by simp)
      | some p =>
        rw [hpost] at h
        simp only [Option.some.injEq] at h
        subst h
        have : v6Bytes acc = acc.pre.length + p.length := by
          simp [v6Bytes, hpost]
        simp only [List.length_append, List.length_replicate]
        omega
    · rename_i hge
      cases hpost : acc.post with
      | none =>
        rw [hpost] at h
        simp only [Option.some.injEq] at h
        subst h
        have : v6Bytes acc = acc.pre.length := by simp [v6Bytes, hpost]
        omega
      | some p => rw [hpost] at h; exact absurd h (by simp)

theorem v6Bytes_pushGroup (acc : V6Acc) (n : Nat) :
    v6Bytes (v6PushGroup acc n) = v6Bytes acc + 2 := by
  rw [v6PushGroup, v6Bytes_push]
  rfl

theorem v6Bytes_ellipsis {acc : V6Acc} (hpost : acc.post = none) (n : Nat) :
    v6Bytes { v6PushGroup acc n with post := some [] } = v6Bytes acc + 2 := by
  simp [v6PushGroup, v6Push, v6Bytes, hpost]

theorem parseIPv6Loop_length :
    ∀ fuel s acc l, v6Bytes acc ≤ 16 → v6Bytes acc % 2 = 0 →
      parseIPv6Loop fuel s acc = some l → l.length = 16 := by
  intro fuel
  induction fuel with
  | zero =>
    intro s acc l hb he h
    unfold parseIPv6Loop at h
    split at h
    · exact v6Finish_length hb h
    · exact absurd h (by simp)
  | succ f ih =>
    intro s acc l hb he h
    unfold parseIPv6Loop at h
    split at h
    · exact v6Finish_length hb h
    · rename_i hlt
      push_neg at hlt
      split at h
      · exact absurd h (by simp)
      · rename_i fl heq
        have hfl : fl = f := by omega
        subst hfl
        split at h
        · exact absurd h (by simp)
        · split at h
          · -- embedded IPv4 tail
            split at h
            · exact absurd h (by simp)
            · split at h
              · exact absurd h (by simp)
              · rename_i hroom
                push_neg at hroom
                cases hp4 : parseIPv4 s with
                | none => rw [hp4] at h; exact absurd h (by simp)
                | some ip4 =>
                  rw [hp4] at h
                  obtain ⟨a, b, c, d, hip4, -⟩ := parseIPv4_inv hp4
                  refine v6Finish_length ?_ h
                  rw [v6Bytes_push, hip4]
                  simp only [List.length_cons, List.length_nil]
                  omega
          · split at h
            · -- string exhausted after the group
              refine v6Finish_length ?_ h
              rw [v6Bytes_pushGroup]
              omega
            · split at h
              · exact absurd h (by simp)
              · split at h
                · -- ellipsis marker
                  split at h
                  · exact absurd h (by simp)
                  · rename_i hpost
                    push_neg at hpost
                    have hap : acc.post = none := by
                      simp only [v6PushGroup, v6Push] at hpost
                      cases hap : acc.post with
                      | none => rfl
                      | some p => rw [hap] at hpost; simp at hpost
                    split at h
                    · refine v6Finish_length ?_ h
                      rw [v6Bytes_ellipsis hap]
                      omega
                    · refine ih _ _ _ ?_ ?_ h
                      · rw [v6Bytes_ellipsis hap]
                        omega
                      · rw [v6Bytes_ellipsis hap]
                        omega
                · refine ih _ _ _ ?_ ?_ h
                  · rw [v6Bytes_pushGroup]
                    omega
                  · rw [v6Bytes_pushGroup]
                    omega

theorem parseIPv6_length {s : List Char} {l : List Nat}
    (h : parseIPv6 s = some l) : l.length = 16 := by
  unfold parseIPv6 at h
  split at h
  · rename_i rest
    split at h
    · simp only [Option.some.injEq] at h
      subst h
      simp
    · exact parseIPv6Loop_length 8 _ _ _ (by simp [v6Bytes]) (by simp [v6Bytes]) h
  · exact parseIPv6Loop_length 8 _ _ _ (by simp [v6Bytes]) (by simp [v6Bytes]) h

theorem cidrMaskBytes_length (n l : Nat) : (cidrMaskBytes n l).length = l := by
  induction l generalizing n with
  | zero => rfl
  | succ k ih =>
    unfold cidrMaskBytes
    split <;> simp [ih]

theorem le255_of_mem_cidrMaskBytes :
    ∀ n l b, b ∈ cidrMaskBytes n l → b ≤ 255 := by
  intro n l
  induction l generalizing n with
  | zero => intro b hb; simp [cidrMaskBytes] at hb
  | succ k ih =>
    intro b hb
    unfold cidrMaskBytes at hb
    split at hb
    · rcases List.mem_cons.mp hb with h | h
      · omega
      · exact ih _ _ h
    · rcases List.mem_cons.mp hb with h | h
      · subst h
        have h1 : (255 : Nat) < 2 ^ 8 := by norm_num
        have h2 : 255 >>> n < 2 ^ 8 := by
          rw [Nat.shiftRight_eq_div_pow]
          exact lt_of_le_of_lt (Nat.div_le_self _ _) h1
        have := Nat.xor_lt_two_pow h1 h2
        omega
      · exact ih _ _ h

theorem ipMask_eq_zipWith {ip mask : List Nat}
    (h : ip.length = 4 ∧ mask.length = 4 ∨ ip.length = 16 ∧ mask.length = 16) :
    ipMask ip mask = some (List.zipWith (fun a b => a &&& b) ip mask) := by
  rcases h with ⟨h1, h2⟩ | ⟨h1, h2⟩ <;> simp [ipMask, h1, h2]

theorem cidrMask_eq {n bits : Nat} (hb : bits = 32 ∨ bits = 128) (hn : n ≤ bits) :
    cidrMask n bits = some (cidrMaskBytes n (bits / 8)) := by
  rcases hb with h | h <;> subst h <;> simp [cidrMask] <;> omega

theorem parseCIDRMask_inv {ip : List Nat} {iplen : Nat} {maskStr : List Char}
    {out : List Nat × IPNet}
    (hlen : ip.length = iplen) (hiplen : iplen = 4 ∨ iplen = 16)
    (h : parseCIDRMask ip iplen maskStr = some out) :
    out.1 = ip ∧ ∃ n, out.2.mask = cidrMaskBytes n iplen ∧
      out.2.ip = List.zipWith (fun a b => a &&& b) ip out.2.mask := by
  unfold parseCIDRMask at h
  split at h
  · exact absurd h (by simp)
  · rename_i hok
    push_neg at hok
    obtain ⟨-, -, hle⟩ := hok
    have hbits : 8 * iplen = 32 ∨ 8 * iplen = 128 := by
      rcases hiplen with h' | h' <;> omega
    have hdiv : 8 * iplen / 8 = iplen := by omega
    simp only [bind, Option.bind_eq_some] at h
    obtain ⟨m, hm, masked, hmask, hout⟩ := h
    rw [cidrMask_eq hbits hle, hdiv] at hm
    simp only [Option.some.injEq] at hm
    subst hm
    have hmlen : (cidrMaskBytes (dtoi maskStr).1 iplen).length = iplen :=
      cidrMaskBytes_length _ _
    rw [ipMask_eq_zipWith (by
      rcases hiplen with h' | h'
      · exact Or.inl ⟨by rw [hlen, h'], by rw [hmlen, h']⟩
      · exact Or.inr ⟨by rw [hlen, h'], by rw [hmlen, h']⟩)] at hmask
    simp only [Option.some.injEq] at hmask hout
    subst hmask
    subst hout
    exact ⟨rfl, (dtoi maskStr).1, rfl, rfl⟩

theorem parseCIDR_inv {s : List Char} {ip : List Nat} {net : IPNet}
    (h : parseCIDR s = some (ip, net)) :
    ((∃ a b c d, ip = [a, b, c, d] ∧ a ≤ 255 ∧ b ≤ 255 ∧ c ≤ 255 ∧ d ≤ 255) ∨
      ip.length = 16) ∧
    ∃ n, net.mask = cidrMaskBytes n ip.length ∧
      net.ip = List.zipWith (fun a b => a &&& b) ip net.mask := by
  simp only [parseCIDR, bind, Option.bind_eq_some] at h
  obtain ⟨⟨addr, maskStr⟩, hsp, h⟩ := h
  cases h4 : parseIPv4 addr with
    | some ip4 =>
      rw [h4] at h
      obtain ⟨a, b, c, d, hip4, ha, hb', hc, hd⟩ := parseIPv4_inv h4
      have hlen : ip4.length = 4 := by rw [hip4]; rfl
      obtain ⟨hout1, n, hmask, hipeq⟩ := parseCIDRMask_inv hlen (Or.inl rfl) h
      have hip : ip = ip4 := hout1
      have hiplen : ip.length = 4 := by rw [hip]; exact hlen
      refine ⟨Or.inl ⟨a, b, c, d, by rw [hip, hip4], ha, hb', hc, hd⟩, n, ?_, ?_⟩
      · rw [hiplen]; exact hmask
      · rw [hip]; exact hipeq
    | none =>
      rw [h4] at h
      cases h6 : parseIPv6 addr with
      | none => rw [h6] at h; exact absurd h (by simp)
      | some ip6 =>
        rw [h6] at h
        have hlen := parseIPv6_length h6
        obtain ⟨hout1, n, hmask, hipeq⟩ := parseCIDRMask_inv hlen (Or.inr rfl) h
        have hip : ip = ip6 := hout1
        have hiplen : ip.length = 16 := by rw [hip]; exact hlen
        refine ⟨Or.inr hiplen, n, ?_, ?_⟩
        · rw [hiplen]; exact hmask
        · rw [hip]; exact hipeq

theorem renderByte_digits : ∀ n, n < 256 → allDigits (renderByte n) = true := by decide

theorem valNat_renderByte : ∀ n, n < 256 → valNat (renderByte n) = n := by decide

theorem renderByte_inj {a b : Nat} (ha : a < 256) (hb : b < 256)
    (h : renderByte a = renderByte b) : a = b := by
  have h2 := congrArg valNat h
  rw [valNat_renderByte a ha, valNat_renderByte b hb] at h2
  exact h2

theorem digits_dot_cancel :
    ∀ (xs ys r1 r2 : List Char), allDigits xs = true → allDigits ys = true →
      xs ++ '.' :: r1 = ys ++ '.' :: r2 → xs = ys ∧ r1 = r2 := by
  intro xs
  induction xs with
  | nil =>
    intro ys r1 r2 _ hys h
    cases ys with
    | nil => simpa using h
    | cons y yt =>
      exfalso
      simp only [List.nil_append, List.cons_append, List.cons.injEq] at h
      obtain ⟨h1, -⟩ := h
      rw [← h1] at hys
      simp [allDigits] at hys
  | cons x xt ih =>
    intro ys r1 r2 hxs hys h
    cases ys with
    | nil =>
      exfalso
      simp only [List.nil_append, List.cons_append, List.cons.injEq] at h
      obtain ⟨h1, -⟩ := h
      rw [h1] at hxs
      simp [allDigits] at hxs
    | cons y yt =>
      simp only [List.cons_append, List.cons.injEq] at h
      obtain ⟨hxy, hrest⟩ := h
      simp only [allDigits, List.all_cons, Bool.and_eq_true] at hxs hys
      obtain ⟨he, hr⟩ := ih yt r1 r2 hxs.2 hys.2 hrest
      exact ⟨by rw [hxy, he], hr⟩

theorem renderV4_inj {a b c d a' b' c' d' : Nat}
    (ha : a < 256) (hb : b < 256) (hc : c < 256) (hd : d < 256)
    (ha' : a' < 256) (hb' : b' < 256) (hc' : c' < 256) (hd' : d' < 256)
    (h : renderV4 [a, b, c, d] = renderV4 [a', b', c', d']) :
    a = a' ∧ b = b' ∧ c = c' ∧ d = d' := by
  simp only [renderV4] at h
  obtain ⟨e1, h⟩ := digits_dot_cancel _ _ _ _
    (renderByte_digits a ha) (renderByte_digits a' ha') h
  obtain ⟨e2, h⟩ := digits_dot_cancel _ _ _ _
    (renderByte_digits b hb) (renderByte_digits b' hb') h
  obtain ⟨e3, h⟩ := digits_dot_cancel _ _ _ _
    (renderByte_digits c hc) (renderByte_digits c' hc') h
  exact ⟨renderByte_inj ha ha' e1, renderByte_inj hb hb' e2,
    renderByte_inj hc hc' e3, renderByte_inj hd hd' h⟩

theorem ipString_len4 {l : List Nat} (h : l.length = 4) : ipString l = renderV4 l := by
  have hne : l ≠ [] := by
    intro he
    rw [he] at h
    simp at h
  have h4 : to4 l = some l := by
    unfold to4
    rw [if_pos h]
  unfold ipString
  rw [if_neg hne, h4]

theorem ipString_eq_iff_len4 {l1 l2 : List Nat}
    (h1 : l1.length = 4) (h2 : l2.length = 4)
    (b1 : ∀ x ∈ l1, x ≤ 255) (b2 : ∀ x ∈ l2, x ≤ 255) :
    ipString l1 = ipString l2 ↔ l1 = l2 := by
  constructor
  · intro h
    rw [ipString_len4 h1, ipString_len4 h2] at h
    obtain ⟨a, b, c, d, e1⟩ := list_len4 h1
    obtain ⟨a', b', c', d', e2⟩ := list_len4 h2
    subst e1
    subst e2
    have ha : a < 256 := by have := b1 a (by simp); omega
    have hb : b < 256 := by have := b1 b (by simp); omega
    have hc : c < 256 := by have := b1 c (by simp); omega
    have hd : d < 256 := by have := b1 d (by simp); omega
    have ha' : a' < 256 := by have := b2 a' (by simp); omega
    have hb' : b' < 256 := by have := b2 b' (by simp); omega
    have hc' : c' < 256 := by have := b2 c' (by simp); omega
    have hd' : d' < 256 := by have := b2 d' (by simp); omega
    obtain ⟨q1, q2, q3, q4⟩ := renderV4_inj ha hb hc hd ha' hb' hc' hd' h
    rw [q1, q2, q3, q4]
  · intro h
    rw [h]

theorem privateNet10_eq : privateNet10 = ⟨[10, 0, 0, 0], [255, 0, 0, 0]⟩ := by decide

theorem privateNet172_eq : privateNet172 = ⟨[172, 16, 0, 0], [255, 240, 0, 0]⟩ := by decide

theorem privateNet192_eq : privateNet192 = ⟨[192, 168, 0, 0], [255, 255, 0, 0]⟩ := by decide

theorem and255_eq {a : Nat} (h : a ≤ 255) : a &&& 255 = a := by
  have h2 : (255 : Nat) = 2 ^ 8 - 1 := by norm_num
  rw [h2, Nat.and_pow_two_sub_one_eq_mod]
  exact Nat.mod_eq_of_lt (by omega)

theorem nnm_p10 : networkNumberAndMask ⟨[10, 0, 0, 0], [255, 0, 0, 0]⟩ =
    some ([10, 0, 0, 0], [255, 0, 0, 0]) := by decide

theorem nnm_p172 : networkNumberAndMask ⟨[172, 16, 0, 0], [255, 240, 0, 0]⟩ =
    some ([172, 16, 0, 0], [255, 240, 0, 0]) := by decide

theorem nnm_p192 : networkNumberAndMask ⟨[192, 168, 0, 0], [255, 255, 0, 0]⟩ =
    some ([192, 168, 0, 0], [255, 255, 0, 0]) := by decide

theorem netContains_p10_to4 {x : List Nat} {a b c d : Nat}
    (h4 : to4 x = some [a, b, c, d]) (ha : a ≤ 255) :
    netContains privateNet10 x = decide (a = 10) := by
  rw [privateNet10_eq]
  simp only [netContains, nnm_p10, h4]
  simp [and255_eq ha, Nat.and_zero, Nat.zero_and, eq_comm,
    show (10 : Nat) &&& 255 = 10 by decide]

theorem netContains_p172_to4 {x : List Nat} {a b c d : Nat}
    (h4 : to4 x = some [a, b, c, d]) (ha : a ≤ 255) :
    netContains privateNet172 x = (decide (a = 172) && decide (b &&& 240 = 16)) := by
  rw [privateNet172_eq]
  simp only [netContains, nnm_p172, h4]
  simp [and255_eq ha, Nat.and_zero, Nat.zero_and, eq_comm,
    show (172 : Nat) &&& 255 = 172 by decide, show (16 : Nat) &&& 240 = 16 by decide]

theorem netContains_p192_to4 {x : List Nat} {a b c d : Nat}
    (h4 : to4 x = some [a, b, c, d]) (ha : a ≤ 255) (hb : b ≤ 255) :
    netContains privateNet192 x = (decide (a = 192) && decide (b = 168)) := by
  rw [privateNet192_eq]
  simp only [netContains, nnm_p192, h4]
  simp [and255_eq ha, and255_eq hb, Nat.and_zero, Nat.zero_and, eq_comm,
    show (192 : Nat) &&& 255 = 192 by decide, show (168 : Nat) &&& 255 = 168 by decide]

theorem isPrivate_to4 {net : IPNet} {a b c d : Nat}
    (h4 : to4 net.ip = some [a, b, c, d]) (ha : a ≤ 255) (hb : b ≤ 255) :
    isPrivateNetwork net = arithPrivate4 [a, b, c, d] := by
  rw [isPrivateNetwork, netContains_p10_to4 h4 ha, netContains_p172_to4 h4 ha,
    netContains_p192_to4 h4 ha hb]
  simp [arithPrivate4]

theorem isPrivate_len16_notMapped {net : IPNet} (hlen : net.ip.length = 16)
    (hpre : ¬ net.ip.take 12 = v4InV6Prefix) :
    isPrivateNetwork net = false := by
  have h4 : to4 net.ip = none := by
    unfold to4
    rw [if_neg (by rw [hlen]; norm_num), if_neg (by intro hand; exact hpre hand.2)]
  rw [isPrivateNetwork, privateNet10_eq, privateNet172_eq, privateNet192_eq]
  simp only [netContains, nnm_p10, nnm_p172, nnm_p192, h4]
  simp [hlen]

theorem zipWith_and_le {l1 l2 : List Nat} (h2 : ∀ b ∈ l2, b ≤ 255) :
    ∀ y ∈ List.zipWith (fun a b => a &&& b) l1 l2, y ≤ 255 := by
  induction l1 generalizing l2 with
  | nil => intro y hy; simp at hy
  | cons x xs ih =>
    intro y hy
    cases l2 with
    | nil => simp at hy
    | cons z zs =>
      simp only [List.zipWith_cons_cons, List.mem_cons] at hy
      rcases hy with h | h
      · subst h
        exact le_trans Nat.and_le_right (h2 z (by simp))
      · exact ih (fun u hu => h2 u (List.mem_cons_of_mem _ hu)) y h

theorem validateCIDR_char {s : List Char} {ip : List Nat} {net : IPNet}
    (hp : parseCIDR s = some (ip, net)) (hs : s ≠ []) :
    validateCIDR s = none ↔
      ipString ip = ipString net.ip ∧ isPrivateNetwork net = true ∧
        ¬((maskSize net.mask).2 = 32 ∧ 24 < (maskSize net.mask).1) := by
  by_cases h1 : ipString ip = ipString net.ip
  · by_cases h2 : isPrivateNetwork net = true
    · by_cases h3 : (maskSize net.mask).2 = 32 ∧ 24 < (maskSize net.mask).1
      · simp [validateCIDR, hs, hp, h1, h2, h3]
      · simp [validateCIDR, hs, hp, h1, h2, h3]
    · simp [validateCIDR, hs, hp, h1, h2]
  · simp [validateCIDR, hs, hp, h1]

/-- C1 counterexample: the IPv6-notation CIDR ::ffff:10.0.0.0/104 passes
validateCIDR even though it is not an IPv4 CIDR with prefix length at most
24, so validation does not succeed exactly on the condition of the claim. -/
theorem validateCIDR_claim_counterexample :
    validateCIDR "::ffff:10.0.0.0/104".data = none ∧
    claimedOK "::ffff:10.0.0.0/104".data = false := by
  exact ⟨by decide, by decide⟩

/-- C1 (amended): validation succeeds exactly when the input parses as a
dotted IPv4 CIDR whose address equals its masked network address, whose
network lies inside 10.0.0.0/8, 172.16.0.0/12 or 192.168.0.0/16, and whose
prefix length is at most 24 — or when it parses as an IPv6-notation CIDR
whose textual address form equals that of its masked network address and
whose masked network address is an IPv4-mapped address inside those ranges,
with no prefix-length bound in the IPv6 case.  Every other string fails. -/
theorem validateCIDR_ok_iff (s : List Char) :
    validateCIDR s = none ↔ amendedOK s = true := by
  cases hp : parseCIDR s with
  | none =>
    by_cases hs : s = []
    · subst hs
      simp [validateCIDR, amendedOK, hp]
    · simp [validateCIDR, amendedOK, hp, hs]
  | some pair =>
    obtain ⟨ip, net⟩ := pair
    have hs : s ≠ [] := by
      intro he
      subst he
      rw [show parseCIDR [] = none from rfl] at hp
      exact absurd hp (by simp)
    rw [validateCIDR_char hp hs]
    obtain ⟨hshape, n, hmask, hipeq⟩ := parseCIDR_inv hp
    rcases hshape with ⟨a, b, c, d, hip, ha, hb, hc, hd⟩ | hlen16
    · -- IPv4 branch
      subst hip
      have hmlen : net.mask.length = 4 := by
        rw [hmask]
        exact cidrMaskBytes_length _ _
      obtain ⟨m0, m1, m2, m3, hm⟩ := list_len4 hmlen
      have hmb : ∀ y ∈ net.mask, y ≤ 255 := by
        rw [hmask]
        exact fun y hy => le255_of_mem_cidrMaskBytes _ _ _ hy
      have hm0 : m0 ≤ 255 := hmb m0 (by rw [hm]; simp)
      have hm1 : m1 ≤ 255 := hmb m1 (by rw [hm]; simp)
      have hm2 : m2 ≤ 255 := hmb m2 (by rw [hm]; simp)
      have hm3 : m3 ≤ 255 := hmb m3 (by rw [hm]; simp)
      have hmasked : net.ip = [a &&& m0, b &&& m1, c &&& m2, d &&& m3] := by
        rw [hipeq, hm]
        rfl
      have hb0 : a &&& m0 ≤ 255 := le_trans Nat.and_le_right hm0
      have hb1 : b &&& m1 ≤ 255 := le_trans Nat.and_le_right hm1
      have hb2 : c &&& m2 ≤ 255 := le_trans Nat.and_le_right hm2
      have hb3 : d &&& m3 ≤ 255 := le_trans Nat.and_le_right hm3
      have hstr : ipString [a, b, c, d] = ipString net.ip ↔ [a, b, c, d] = net.ip := by
        rw [hmasked]
        refine ipString_eq_iff_len4 (by simp) (by simp) ?_ ?_
        · intro x hx
          simp only [List.mem_cons, List.not_mem_nil, or_false] at hx
          rcases hx with h | h | h | h <;> subst h <;> omega
        · intro x hx
          simp only [List.mem_cons, List.not_mem_nil, or_false] at hx
          rcases hx with h | h | h | h <;> subst h <;> omega
      have h4 : to4 net.ip = some [a &&& m0, b &&& m1, c &&& m2, d &&& m3] := by
        rw [hmasked]
        simp [to4]
      have hpriv : isPrivateNetwork net = arithPrivate4 net.ip := by
        rw [isPrivate_to4 h4 hb0 hb1, hmasked]
      have hsz : ¬((maskSize net.mask).2 = 32 ∧ 24 < (maskSize net.mask).1) ↔
          (maskSize net.mask).1 ≤ 24 := by
        unfold maskSize
        cases hsml : simpleMaskLength net.mask with
        | none => simp
        | some k =>
          simp [hmlen]
          try omega
      simp only [amendedOK, hp]
      simp only [Bool.or_eq_true, Bool.and_eq_true, decide_eq_true_eq]
      constructor
      · rintro ⟨heq, hpr, hsize⟩
        exact Or.inl ⟨⟨⟨by simp, hstr.mp heq⟩, hpriv.symm.trans hpr⟩, hsz.mp hsize⟩
      · rintro (⟨⟨⟨-, heq⟩, hpr⟩, hsize⟩ | ⟨⟨hlen, -⟩, -⟩)
        · exact ⟨hstr.mpr heq, hpriv.trans hpr, hsz.mpr hsize⟩
        · simp at hlen
    · -- IPv6 branch
      have hmlen : net.mask.length = 16 := by
        rw [hmask, hlen16]
        exact cidrMaskBytes_length _ _
      have hmb : ∀ y ∈ net.mask, y ≤ 255 := by
        rw [hmask]
        exact fun y hy => le255_of_mem_cidrMaskBytes _ _ _ hy
      have hplen : net.ip.length = 16 := by
        rw [hipeq]
        simp [List.length_zipWith, hlen16, hmlen]
      have hpb : ∀ y ∈ net.ip, y ≤ 255 := by
        rw [hipeq]
        exact zipWith_and_le hmb
      have hsz : ¬((maskSize net.mask).2 = 32 ∧ 24 < (maskSize net.mask).1) := by
        unfold maskSize
        cases hsml : simpleMaskLength net.mask with
        | none => simp
        | some k =>
          simp only [hmlen]
          rintro ⟨hcon, -⟩
          omega
      have hpriv : isPrivateNetwork net = isMapped4Private net.ip := by
        by_cases hpre : net.ip.take 12 = v4InV6Prefix
        · have hd4len : (net.ip.drop 12).length = 4 := by
            rw [List.length_drop, hplen]
          obtain ⟨a, b, c, d, hd4⟩ := list_len4 hd4len
          have h4 : to4 net.ip = some [a, b, c, d] := by
            unfold to4
            rw [if_neg (by rw [hplen]; norm_num), if_pos ⟨hplen, hpre⟩, hd4]
          have ha : a ≤ 255 := hpb a (List.drop_subset 12 net.ip (by rw [hd4]; simp))
          have hbb : b ≤ 255 := hpb b (List.drop_subset 12 net.ip (by rw [hd4]; simp))
          rw [isPrivate_to4 h4 ha hbb, isMapped4Private, hd4]
          simp [hplen, hpre]
        · rw [isPrivate_len16_notMapped hplen hpre, isMapped4Private]
          simp [hpre]
      simp only [amendedOK, hp]
      simp only [Bool.or_eq_true, Bool.and_eq_true, decide_eq_true_eq]
      constructor
      · rintro ⟨heq, hmp, -⟩
        exact Or.inr ⟨⟨hlen16, heq⟩, hpriv.symm.trans hmp⟩
      · rintro (⟨⟨⟨hlen, -⟩, -⟩, -⟩ | ⟨⟨-, heq⟩, hmp⟩)
        · rw [hlen16] at hlen
          simp at hlen
        · exact ⟨heq, hpriv.trans hmp, hsz⟩

/-- C2 counterexample: an out-of-policy network block (8.8.8.0/24, a public
range) does not terminate the run: the program re-prompts, takes the next
input as the network block, and proceeds with it. -/
theorem inputPhase_retry_counterexample :
    inputPhase ["8.8.8.0/24".data, "192.168.100.0/24".data, "armani.lab".data,
        "pw".data, []] = .proceeds
      { Namespace := "infra".data
        NetworkCIDR := "192.168.100.0/24".data
        Domain := "armani.lab".data
        BaseDN := "dc=armani,dc=lab".data
        AdminPass := "pw".data
        ConfigPass := "pw".data
        Kubeconfig := "/etc/rancher/k3s/k3s.yaml".data
        ReleaseName := "ldap".data
        OpenLDAPRepo := "https://jp-gouin.github.io/helm-openldap/".data
        OpenLDAPChart := "helm-openldap/openldap-stack-ha".data
        OpenLDAPVer := [] } := by decide

/-- C2 (amended): a malformed or out-of-policy network block is not fatal:
the program surfaces the error and re-prompts, consuming further input until
a valid block arrives; an empty trimmed domain and an empty admin credential
are fatal, surfaced immediately, terminating the run with no retry. -/
theorem inputPhase_fatal_spec :
    (∀ bad rest, validateCIDR (goTrimSpace bad) ≠ none →
      inputPhase (bad :: rest) = inputPhase rest) ∧
    (∀ v d rest, validateCIDR (goTrimSpace v) = none → goTrimSpace d = [] →
      inputPhase (v :: d :: rest) = .fatal "domain is required".data) ∧
    (∀ v d a rest, validateCIDR (goTrimSpace v) = none → goTrimSpace d ≠ [] →
      goTrimSpace a = [] →
      inputPhase (v :: d :: a :: rest) = .fatal "admin password required".data) := by
  refine ⟨?_, ?_, ?_⟩
  · intro bad rest hbad
    have hloop : readCIDRLoop (bad :: rest) = readCIDRLoop rest := by
      show (if validateCIDR (goTrimSpace bad) = none then some (goTrimSpace bad, rest)
        else readCIDRLoop rest) = readCIDRLoop rest
      rw [if_neg hbad]
    unfold inputPhase
    rw [hloop]
  · intro v d rest hv hd
    have hloop : readCIDRLoop (v :: d :: rest) = some (goTrimSpace v, d :: rest) := by
      show (if validateCIDR (goTrimSpace v) = none then some (goTrimSpace v, d :: rest)
        else readCIDRLoop (d :: rest)) = some (goTrimSpace v, d :: rest)
      rw [if_pos hv]
    unfold inputPhase
    rw [hloop]
    simp [ask1, hd]
  · intro v d a rest hv hd ha
    have hloop : readCIDRLoop (v :: d :: a :: rest) = some (goTrimSpace v, d :: a :: rest) := by
      show (if validateCIDR (goTrimSpace v) = none then some (goTrimSpace v, d :: a :: rest)
        else readCIDRLoop (d :: a :: rest)) = some (goTrimSpace v, d :: a :: rest)
      rw [if_pos hv]
    unfold inputPhase
    rw [hloop]
    simp [ask1, hd, ha]

theorem inputPhase_fatal_spec_witness :
    inputPhase ["10.0.0.0/8".data, " ".data] = .fatal "domain is required".data ∧
    inputPhase ["10.0.0.0/8".data, "armani.lab".data, "".data] =
      .fatal "admin password required".data ∧
    inputPhase ["not-a-cidr".data, "x".data] = inputPhase ["x".data] := by
  refine ⟨?_, ?_, ?_⟩
  · exact inputPhase_fatal_spec.2.1 _ _ [] (by decide) (by decide)
  · exact inputPhase_fatal_spec.2.2 _ _ _ [] (by decide) (by decide) (by decide)
  · exact inputPhase_fatal_spec.1 _ _ (by decide)

/-- C8: with network block 192.168.100.0/24, domain armani.lab, admin
credential S3cret! and a blank secondary credential, the run proceeds with
base identifier dc=armani,dc=lab and secondary credential S3cret!, and the
rendered remediation-job document contains the literal substring
dc=armani,dc=lab and no unresolved placeholder token (no occurrence of the
placeholder opener). -/
theorem memberOfScenario_spec :
    inputPhase ["192.168.100.0/24".data, "armani.lab".data, "S3cret!".data, []] =
      .proceeds scenarioConfig ∧
    scenarioConfig.BaseDN = "dc=armani,dc=lab".data ∧
    scenarioConfig.ConfigPass = "S3cret!".data ∧
    containsSub (renderMemberOfJob scenarioConfig) "dc=armani,dc=lab".data = true ∧
    containsSub (renderMemberOfJob scenarioConfig) "\x7b\x7b.".data = false := by
  refine ⟨by decide, rfl, rfl, by decide, by decide⟩

end Byoit
